import Mathlib

/-!
Verification of the rpgmp3-analytics metadata extraction and inference
pipeline.  The Python sources (src/rpgstats/crawl/extract_post.py,
src/rpgstats/db/raw_posts.py, src/rpgstats/cli.py) are shallowly embedded
as executable Lean definitions over `List Char` / `String`, with the
regular expressions of the source translated into explicit scanners that
follow Python `re` semantics (leftmost match, greedy quantifiers,
branch-order alternation, IGNORECASE where the source sets it).
-/

namespace RpgStats

/-! ## Basic character and string helpers (Python `str` operations) -/

/-- Python `\s` for the ASCII range (space, tab, newline, CR, VT, FF). -/
def isSpaceC (c : Char) : Bool :=
  c = ' ' || c = '\t' || c = '\n' || c = '\r' || c = '\x0b' || c = '\x0c'

/-- Python `\w` for the ASCII range: letters, digits and underscore. -/
def isWordC (c : Char) : Bool :=
  c.isDigit || c.isAlpha || c = '_'

/-- Python `str.lower()` (ASCII case mapping). -/
def lowStr (cs : List Char) : List Char := cs.map Char.toLower

/-- Python list/str prefix test used to implement substring containment. -/
def isPrefOf : List Char → List Char → Bool
  | [], _ => true
  | _ :: _, [] => false
  | a :: as, b :: bs => a = b && isPrefOf as bs

/-- Python substring containment `needle in hay` (contiguous). -/
def containsSub (needle : List Char) : List Char → Bool
  | [] => needle.isEmpty
  | c :: cs => isPrefOf needle (c :: cs) || containsSub needle cs

/-- Python `str.strip(chars)` / `str.strip()`: drop characters satisfying
`p` from both ends. -/
def stripAll (p : Char → Bool) (cs : List Char) : List Char :=
  ((cs.dropWhile p).reverse.dropWhile p).reverse

/-- Python `str.split(sep)` for a single-character separator. -/
def splitOnC (sep : Char) : List Char → List (List Char)
  | [] => [[]]
  | c :: rest =>
    if c = sep then [] :: splitOnC sep rest
    else
      match splitOnC sep rest with
      | [] => [[c]]
      | p :: ps => (c :: p) :: ps

/-- Case-insensitive literal match at the head of the input (a regex
literal under re.IGNORECASE); returns the remainder after the literal. -/
def takeLitCI : List Char → List Char → Option (List Char)
  | [], cs => some cs
  | _ :: _, [] => none
  | p :: ps, c :: cs => if p.toLower = c.toLower then takeLitCI ps cs else none

/-- Greedy `\d+` (at least one digit): returns the remainder. -/
def digits1 (cs : List Char) : Option (List Char) :=
  if (cs.takeWhile Char.isDigit).isEmpty then none
  else some (cs.dropWhile Char.isDigit)

/-- Python `int()` restricted to nonempty all-digit strings (the only
inputs produced by the duration regex); `none` models a raise. -/
def digitsToNat (cs : List Char) : Option Nat :=
  if cs.isEmpty then none
  else if cs.all Char.isDigit then
    some (cs.foldl (fun a c => a * 10 + (c.toNat - '0'.toNat)) 0)
  else none

/-! ## Duration extraction (extract_post.py lines 14-15, 44-52, 385-387)

DURATION_RE = `Duration:\s*([0-9]{1,2}:[0-9]{2}(?::[0-9]{2})?)`, IGNORECASE.
-/

/-- Tail of the clock pattern after the hour/minute digits and the first
colon have been recognised: `[0-9]{2}(?::[0-9]{2})?`.  `hh` is the text
matched so far (group 1 prefix); returns the full group-1 capture. -/
def matchMMTail (hh : List Char) (cs : List Char) : Option (List Char) :=
  match cs with
  | d1 :: d2 :: rest =>
    if d1.isDigit && d2.isDigit then
      match rest with
      | ':' :: e1 :: e2 :: _ =>
        if e1.isDigit && e2.isDigit then
          some (hh ++ ':' :: d1 :: d2 :: ':' :: e1 :: e2 :: [])
        else some (hh ++ ':' :: d1 :: d2 :: [])
      | _ => some (hh ++ ':' :: d1 :: d2 :: [])
    else none
  | _ => none

/-- The group-1 clock pattern `[0-9]{1,2}:[0-9]{2}(?::[0-9]{2})?` matched
at the head of the input (greedy `{1,2}` with regex backtracking):
one or two digits must be followed directly by a colon. -/
def matchClockAt (cs : List Char) : Option (List Char) :=
  match cs with
  | c1 :: c2 :: rest =>
    if c1.isDigit then
      if c2.isDigit then
        match rest with
        | ':' :: rest2 => matchMMTail [c1, c2] rest2
        | _ => none
      else if c2 = ':' then matchMMTail [c1] rest
      else none
    else none
  | _ => none

/-- DURATION_RE.search: leftmost occurrence of
`Duration:\s*<clock>` (IGNORECASE), returning the group-1 capture. -/
def durationSearch : List Char → Option (List Char)
  | [] => none
  | c :: cs =>
    match takeLitCI "Duration:".data (c :: cs) with
    | some rest =>
      match matchClockAt (rest.dropWhile isSpaceC) with
      | some cap => some cap
      | none => durationSearch cs
    | none => durationSearch cs

/-- Embeds `_hms_to_seconds` (extract_post.py lines 44-52).  `none`
corresponds to the `ValueError` raised when the colon-split yields
neither 2 nor 3 parts (or when `int()` would fail). -/
def hmsToSeconds (s : List Char) : Option Nat :=
  match splitOnC ':' s with
  | [m, sec] => do
    let mv ← digitsToNat m
    let sv ← digitsToNat sec
    pure (mv * 60 + sv)
  | [h, m, sec] => do
    let hv ← digitsToNat h
    let mv ← digitsToNat m
    let sv ← digitsToNat sec
    pure (hv * 3600 + mv * 60 + sv)
  | _ => none

/-- Embeds the duration step of `extract_post_fields` (lines 385-387):
search the container text with DURATION_RE and convert group 1 with
`_hms_to_seconds`. -/
def extractDurationSeconds (containerText : String) : Option Nat :=
  match durationSearch containerText.data with
  | none => none
  | some cap => hmsToSeconds cap

/-! ## Campaign-name cleanup (extract_post.py lines 22-41, 127-150)

BAD_CAMPAIGN_SUFFIX_RE removes, case-insensitively and between word
boundaries, `session\s*\d+[a-z]?`, `part\s*\d+`, `character\s+creation`,
`sfx`, or `\d+[a-z]?`.  Alternation order and greedy matching follow
Python `re`. -/

/-- After a greedily matched `\d+` (previous char is a digit), embeds
`[a-z]?\b` under IGNORECASE.  A letter is consumed only when a word
boundary follows it; otherwise the trailing `\b` must hold right after
the digits (which fails on a following word character, including after
regex backtracking, since a digit-digit or digit-letter junction is
never a boundary). -/
def tailLetterBound (r : List Char) : Option (List Char) :=
  match r with
  | [] => some []
  | c :: rest =>
    if c.isAlpha then
      match rest with
      | [] => some []
      | d :: _ => if isWordC d then none else some rest
    else if isWordC c then none
    else some r

/-- Trailing `\b` when the previous consumed character is a word
character: the next character must be absent or a non-word character. -/
def wordBound (r : List Char) : Option (List Char) :=
  match r with
  | [] => some []
  | c :: _ => if isWordC c then none else some r

/-- Branch `session\s*\d+[a-z]?` of BAD_CAMPAIGN_SUFFIX_RE. -/
def brSession (cs : List Char) : Option (List Char) :=
  match takeLitCI "session".data cs with
  | none => none
  | some r1 =>
    match digits1 (r1.dropWhile isSpaceC) with
    | none => none
    | some r2 => tailLetterBound r2

/-- Branch `part\s*\d+` of BAD_CAMPAIGN_SUFFIX_RE. -/
def brPart (cs : List Char) : Option (List Char) :=
  match takeLitCI "part".data cs with
  | none => none
  | some r1 =>
    match digits1 (r1.dropWhile isSpaceC) with
    | none => none
    | some r2 => wordBound r2

/-- Branch `character\s+creation` of BAD_CAMPAIGN_SUFFIX_RE. -/
def brCharCreation (cs : List Char) : Option (List Char) :=
  match takeLitCI "character".data cs with
  | none => none
  | some r1 =>
    if (r1.takeWhile isSpaceC).isEmpty then none
    else
      match takeLitCI "creation".data (r1.dropWhile isSpaceC) with
      | none => none
      | some r2 => wordBound r2

/-- Branch `sfx` of BAD_CAMPAIGN_SUFFIX_RE. -/
def brSfx (cs : List Char) : Option (List Char) :=
  match takeLitCI "sfx".data cs with
  | none => none
  | some r1 => wordBound r1

/-- Branch `\d+[a-z]?` of BAD_CAMPAIGN_SUFFIX_RE. -/
def brDigits (cs : List Char) : Option (List Char) :=
  match digits1 cs with
  | none => none
  | some r1 => tailLetterBound r1

/-- One attempted match of BAD_CAMPAIGN_SUFFIX_RE's group at the current
position (the leading `\b` is checked by the caller); alternation tries
the branches in source order. -/
def matchBadAt (cs : List Char) : Option (List Char) :=
  match brSession cs with
  | some r => some r
  | none =>
    match brPart cs with
    | some r => some r
    | none =>
      match brCharCreation cs with
      | some r => some r
      | none =>
        match brSfx cs with
        | some r => some r
        | none => brDigits cs

/-- BAD_CAMPAIGN_SUFFIX_RE.sub("", ·): left-to-right scan replacing every
non-overlapping match with the empty string.  `pw` records whether the
previous character of the original text is a word character (for the
leading `\b`); every match ends in a word character, so after a removal
the flag is true.  The fuel argument only bounds the recursion:
`cs.length + 1` steps always suffice, because every step either keeps one
character or removes a nonempty match. -/
def subBadF : Nat → Bool → List Char → List Char
  | 0, _, _ => []
  | _, _, [] => []
  | fuel + 1, pw, c :: rest =>
    if pw ≠ isWordC c then
      match matchBadAt (c :: rest) with
      | some r => subBadF fuel true r
      | none => c :: subBadF fuel (isWordC c) rest
    else c :: subBadF fuel (isWordC c) rest

/-- BAD_CAMPAIGN_SUFFIX_RE.sub("", ·) on a whole string. -/
def subBad (pw : Bool) (cs : List Char) : List Char := subBadF (cs.length + 1) pw cs

/-- Embeds `re.sub(r"\s{2,}", " ", ·)`: a run of two or more whitespace
characters becomes a single space; an isolated whitespace character is
kept as is.  Fuel as in `subBadF`. -/
def collapseWsF : Nat → List Char → List Char
  | 0, _ => []
  | _, [] => []
  | fuel + 1, c :: rest =>
    if isSpaceC c then
      match rest with
      | [] => [c]
      | d :: _ =>
        if isSpaceC d then ' ' :: collapseWsF fuel (rest.dropWhile isSpaceC)
        else c :: collapseWsF fuel rest
    else c :: collapseWsF fuel rest

/-- Embeds `re.sub(r"\s{2,}", " ", ·)` on a whole string. -/
def collapseWs (cs : List Char) : List Char := collapseWsF (cs.length + 1) cs

/-- The separator set of `.strip(" -–—:")` in clean_campaign_name. -/
def isSepC (c : Char) : Bool :=
  c = ' ' || c = '-' || c = '–' || c = '—' || c = ':'

/-- Embeds `.strip(" -–—:")`. -/
def stripSep (cs : List Char) : List Char := stripAll isSepC cs

/-- The cleaned string computed inside clean_campaign_name before the
emptiness / denylist / length checks. -/
def cleanedCore (n : String) : List Char :=
  stripSep (collapseWs (subBad false n.data))

/-- Embeds `clean_campaign_name` (extract_post.py lines 127-150). -/
def clean_campaign_name (name : Option String) : Option String :=
  match name with
  | none => none
  | some n =>
    if n = "" then none
    else
      let cleaned := cleanedCore n
      if cleaned.isEmpty then none
      else if lowStr cleaned = "session".data ∨ lowStr cleaned = "part".data then none
      else if cleaned.length < 3 then none
      else some (String.mk cleaned)

/-! ## Entity inference (extract_post.py lines 18, 153-206)

`infer_group_name` and `infer_system_name` run the same scoring algorithm
over different reference lists; the lists are loaded from external
resources (load_known_groups / load_known_systems), so they appear here
as the `known` parameter. -/

/-- PAREN_RE.findall: the captures of all non-overlapping matches of
`\(([^)]+)\)`, scanning left to right (fuel as in `subBadF`). -/
def parenFindAllF : Nat → List Char → List (List Char)
  | 0, _ => []
  | _, [] => []
  | fuel + 1, c :: rest =>
    if c = '(' then
      let mid := rest.takeWhile (fun x => x ≠ ')')
      match rest.dropWhile (fun x => x ≠ ')') with
      | ')' :: rest2 =>
        if mid.isEmpty then parenFindAllF fuel rest
        else mid :: parenFindAllF fuel rest2
      | _ => parenFindAllF fuel rest
    else parenFindAllF fuel rest

/-- PAREN_RE.findall on a whole string. -/
def parenFindAll (cs : List Char) : List (List Char) := parenFindAllF (cs.length + 1) cs

/-- PAREN_RE.sub("", ·): removes every non-overlapping match of
`\(([^)]+)\)` (fuel as in `subBadF`). -/
def parenSubF : Nat → List Char → List Char
  | 0, _ => []
  | _, [] => []
  | fuel + 1, c :: rest =>
    if c = '(' then
      let mid := rest.takeWhile (fun x => x ≠ ')')
      match rest.dropWhile (fun x => x ≠ ')') with
      | ')' :: rest2 =>
        if mid.isEmpty then c :: parenSubF fuel rest
        else parenSubF fuel rest2
      | _ => c :: parenSubF fuel rest
    else c :: parenSubF fuel rest

/-- PAREN_RE.sub("", ·) on a whole string. -/
def parenSub (cs : List Char) : List Char := parenSubF (cs.length + 1) cs

/-- The weighted haystack list built by infer_group_name /
infer_system_name (lines 158-165 / 186-193): each tag with weight 3, each
parenthesized sub-phrase of a tag with weight 3, and the page text with
weight 1.  Python truthiness: a `None` or empty tag list and a `None` or
empty page text contribute nothing. -/
def haystacks (tags : Option (List String)) (page_text : Option String) :
    List (String × Int) :=
  (match tags with
   | none => []
   | some ts =>
     ts.flatMap (fun t =>
       (t, (3 : Int)) :: (parenFindAll t.data).map (fun m => (String.mk m, (3 : Int))))) ++
  (match page_text with
   | none => []
   | some p => if p = "" then [] else [(p, (1 : Int))])

/-- The score contribution of one haystack for one candidate name
(lines 170-175): 10 if the lowered haystack equals the lowered name,
otherwise the haystack's weight if it contains the name, otherwise 0.
The branches are an if/elif in the source, so they are exclusive. -/
def matchBonus (g : String) (h : String × Int) : Int :=
  if lowStr h.1.data = lowStr g.data then 10
  else if containsSub (lowStr g.data) (lowStr h.1.data) then h.2
  else 0

/-- Total score one pass of the `for g in known` loop adds for
candidate `g`. -/
def entityScore (g : String) : List (String × Int) → Int
  | [] => 0
  | h :: hs => matchBonus g h + entityScore g hs

/-- Key list of the Python dict `{g: 0 for g in known}`: first-occurrence
order, duplicates collapsed. -/
def dictKeys (known : List String) : List String :=
  known.foldl (fun acc g => if g ∈ acc then acc else acc ++ [g]) []

/-- Final dict value for key `g`: the loop body runs once per occurrence
of `g` in `known`, so duplicated reference names accumulate a multiple of
the single-pass score. -/
def dictScore (known : List String) (hs : List (String × Int)) (g : String) : Int :=
  (known.count g) * entityScore g hs

/-- Python `max(items, key=...)` over a nonempty prefix item and the
remaining items: keeps the current best and replaces it only on a
strictly greater key, so the first maximal element wins. -/
def pickMaxGo (best : String × Int) : List (String × Int) → String × Int
  | [] => best
  | x :: xs => pickMaxGo (if best.2 < x.2 then x else best) xs

/-- Embeds `max(scores.items(), key=lambda kv: kv[1])` (raises on an empty list,
which the `if not known` guard rules out). -/
def pickMax : List (String × Int) → Option (String × Int)
  | [] => none
  | x :: xs => some (pickMaxGo x xs)

/-- Embeds `infer_group_name` (lines 153-178); `known` is the list that
`load_known_groups()` returns. -/
def infer_group_name (known : List String) (tags : Option (List String))
    (page_text : Option String) : Option String :=
  if known.isEmpty then none
  else
    let hs := haystacks tags page_text
    match pickMax ((dictKeys known).map (fun g => (g, dictScore known hs g))) with
    | none => none
    | some (best_name, best_score) => if 0 < best_score then some best_name else none

/-- Embeds `infer_system_name` (lines 181-206); the body is the same
algorithm as infer_group_name run over `load_known_systems()`. -/
def infer_system_name (known : List String) (tags : Option (List String))
    (page_text : Option String) : Option String :=
  if known.isEmpty then none
  else
    let hs := haystacks tags page_text
    match pickMax ((dictKeys known).map (fun g => (g, dictScore known hs g))) with
    | none => none
    | some (best_name, best_score) => if 0 < best_score then some best_name else none

/-! ## Campaign inference (extract_post.py lines 19-20, 209-288) -/

/-- One attempted match of SESSION_NUM_RE's body `Session\s+\d+`
(IGNORECASE) at the current position; the leading `\b` is checked by the
caller and the trailing `\b` by `wordBound`. -/
def brSessionNum (cs : List Char) : Option (List Char) :=
  match takeLitCI "session".data cs with
  | none => none
  | some r1 =>
    if (r1.takeWhile isSpaceC).isEmpty then none
    else
      match digits1 (r1.dropWhile isSpaceC) with
      | none => none
      | some r2 => wordBound r2

/-- SESSION_NUM_RE.sub("", ·): removes every `\bSession\s+\d+\b`
(IGNORECASE); scan and fuel as in `subBadF`. -/
def sessionNumSubF : Nat → Bool → List Char → List Char
  | 0, _, _ => []
  | _, _, [] => []
  | fuel + 1, pw, c :: rest =>
    if pw ≠ isWordC c then
      match brSessionNum (c :: rest) with
      | some r => sessionNumSubF fuel true r
      | none => c :: sessionNumSubF fuel (isWordC c) rest
    else c :: sessionNumSubF fuel (isWordC c) rest

/-- SESSION_NUM_RE.sub("", ·) on a whole string. -/
def sessionNumSub (pw : Bool) (cs : List Char) : List Char :=
  sessionNumSubF (cs.length + 1) pw cs

/-- Characters urllib.parse allows in a URL scheme. -/
def schemeChar (c : Char) : Bool :=
  c.isAlpha || c.isDigit || c = '+' || c = '-' || c = '.'

/-- Scheme removal step of urllib.parse.urlparse: drop `scheme:` when the
text before the first colon is a valid nonempty scheme. -/
def splitScheme (url : List Char) : List Char :=
  match url.findIdx? (fun c => c = ':') with
  | none => url
  | some i =>
    if decide (0 < i) && (url.take i).all schemeChar && (url.headD '0').isAlpha then
      url.drop (i + 1)
    else url

/-- Netloc removal step of urlparse: after `//`, the authority extends to
the first `/`, `?` or `#` (which is kept). -/
def splitNetloc (u : List Char) : List Char :=
  match u with
  | '/' :: '/' :: rest => rest.dropWhile (fun c => !(c = '/' || c = '?' || c = '#'))
  | _ => u

/-- The `path` component of urllib.parse.urlparse(url): scheme and netloc
removed, then everything before the first `#` and `?`. -/
def urlPath (url : List Char) : List Char :=
  ((splitNetloc (splitScheme url)).takeWhile (fun c => c ≠ '#')).takeWhile (fun c => c ≠ '?')

/-- SLUG_SESSION_RE.sub("", slug): removes a trailing
`-session-<digits>` (optionally followed by `/`) suffix,
case-insensitively. -/
def stripSessionSuffix (slug : List Char) : List Char :=
  let r0 := slug.reverse
  let slashN : Nat := match r0 with | '/' :: _ => 1 | _ => 0
  let r1 := r0.drop slashN
  let ds := r1.takeWhile Char.isDigit
  if ds.isEmpty then slug
  else if lowStr ((r1.dropWhile Char.isDigit).take 9).reverse = "-session-".data then
    slug.take (slug.length - (slashN + ds.length + 9))
  else slug

/-- Python `str.capitalize()`: first character upper-cased, the rest
lower-cased. -/
def capitalizeW : List Char → List Char
  | [] => []
  | c :: rest => c.toUpper :: rest.map Char.toLower

/-- Python `" ".join(words)`. -/
def joinSpace : List (List Char) → List Char
  | [] => []
  | [w] => w
  | w :: ws => w ++ ' ' :: joinSpace ws

/-- Embeds `infer_campaign_from_url` (lines 209-234). -/
def infer_campaign_from_url (url : Option String) : Option String :=
  match url with
  | none => none
  | some u =>
    if u = "" then none
    else
      let path := stripAll (fun c => c = '/') (urlPath u.data)
      if path.isEmpty then none
      else
        let slug0 := stripAll isSpaceC (lowStr ((splitOnC '/' path).getLastD []))
        let slug := stripAll (fun c => c = '-') (stripSessionSuffix slug0)
        if slug.isEmpty then none
        else
          let words := (splitOnC '-' slug).filter (fun w => !w.isEmpty)
          if words.isEmpty then none
          else some (String.mk (joinSpace (words.map capitalizeW)))

/-- Python truthiness plus `.lower()` applied to an optional string:
`s.lower() if s else None`. -/
def lowOpt (o : Option String) : Option (List Char) :=
  match o with
  | none => none
  | some s => if s = "" then none else some (lowStr s.data)

/-- Embeds `sys_low and x.lower() == sys_low` as a boolean. -/
def optEqLow (x : List Char) (o : Option (List Char)) : Bool :=
  match o with
  | some l => lowStr x = l
  | none => false

/-- Rule 1 of infer_campaign_name (lines 255-269): the first tag with a
parenthesized phrase equal (stripped, lowered) to the group name yields
the tag text without its parenthesized parts, unless that remainder
equals the system or group name or is empty. -/
def rule1Campaign (gnLow : List Char) (sysLow : Option (List Char)) :
    List String → Option String
  | [] => none
  | t :: ts =>
    if (parenFindAll t.data).any (fun p => lowStr (stripAll isSpaceC p) = gnLow) then
      let cleaned := stripAll isSpaceC (parenSub t.data)
      if optEqLow cleaned sysLow then rule1Campaign gnLow sysLow ts
      else if lowStr cleaned = gnLow then rule1Campaign gnLow sysLow ts
      else if cleaned.isEmpty then rule1Campaign gnLow sysLow ts
      else some (String.mk cleaned)
    else rule1Campaign gnLow sysLow ts

/-- Rule 3 of infer_campaign_name (lines 279-288): strip `Session <n>`
from the title, collapse whitespace, trim separators; an empty remainder
falls through to `None`, and a remainder equal to the system name is an
explicit `None`. -/
def titleFallback (title : Option String) (sysLow : Option (List Char)) : Option String :=
  match title with
  | none => none
  | some t =>
    if t = "" then none
    else
      let c2 := stripSep (collapseWs (stripAll isSpaceC (sessionNumSub false t.data)))
      if c2.isEmpty then none
      else if optEqLow c2 sysLow then none
      else some (String.mk c2)

/-- Embeds `infer_campaign_name` (lines 237-288). -/
def infer_campaign_name (tags : Option (List String)) (title : Option String)
    (group_name system_name url : Option String) : Option String :=
  let sysLow := lowOpt system_name
  let gnLow := lowOpt group_name
  let r1 :=
    match tags, gnLow with
    | some ts, some gl => rule1Campaign gl sysLow ts
    | _, _ => none
  match r1 with
  | some c => some c
  | none =>
    match infer_campaign_from_url url with
    | some fu =>
      if fu = "" then titleFallback title sysLow
      else if optEqLow fu.data sysLow then titleFallback title sysLow
      else some fu
    | none => titleFallback title sysLow

/-! ## Persistence: raw_posts rows and the extraction merge
(db/raw_posts.py lines 50-65 and 68-138)

Timestamps (`published_at`, `lastmod`, `now()`) are modelled as abstract
`Nat` instants; tag and video-URL arrays as `List String`. -/

/-- The fields produced by one extraction attempt (the dataclass
PostExtract of extract_post.py, i.e. the spec's ExtractionCandidate). -/
structure PostExtract where
  title : Option String := none
  author : Option String := none
  published_at : Option Nat := none
  tags : Option (List String) := none
  group_name : Option String := none
  system_name : Option String := none
  campaign_name : Option String := none
  duration_seconds : Option Nat := none
  download_url : Option String := none
  file_size_bytes : Option Nat := none
  youtube_urls : Option (List String) := none
deriving DecidableEq

/-- One row of the raw_posts table (the spec's PostRecord). -/
structure PostRow where
  url : String
  lastmod : Option Nat := none
  title : Option String := none
  author : Option String := none
  published_at : Option Nat := none
  tags : Option (List String) := none
  group_name : Option String := none
  system_name : Option String := none
  campaign_name : Option String := none
  duration_seconds : Option Nat := none
  duration_source : Option String := none
  download_url : Option String := none
  file_size_bytes : Option Nat := none
  youtube_urls : Option (List String) := none
  extracted_at : Option Nat := none
  extract_attempts : Nat := 0
  last_extract_error : Option String := none
deriving DecidableEq

/-- SQL `coalesce(nullif(new, ''), old)` for text columns: a new
non-empty value wins; a NULL or empty-string value keeps the old one. -/
def fillTextSql (new old : Option String) : Option String :=
  match new with
  | none => old
  | some s => if s = "" then old else some s

/-- SQL `coalesce(new, old)` for non-text columns. -/
def fillSql {α : Type} (new old : Option α) : Option α :=
  match new with
  | none => old
  | some v => some v

/-- The SET clause of `update_post_extracted` (raw_posts.py lines 90-116)
applied to one row; `now` is the value of `now()`. -/
def applyExtractUpdate (r : PostRow) (e : PostExtract) (now : Nat) : PostRow :=
  { r with
    title := fillTextSql e.title r.title
    author := fillTextSql e.author r.author
    published_at := fillSql e.published_at r.published_at
    tags := fillSql e.tags r.tags
    group_name := fillTextSql e.group_name r.group_name
    system_name := fillTextSql e.system_name r.system_name
    campaign_name := fillTextSql e.campaign_name r.campaign_name
    duration_seconds := fillSql e.duration_seconds r.duration_seconds
    duration_source :=
      match e.duration_seconds with
      | none => r.duration_source
      | some _ => some "wp_html"
    download_url := fillTextSql e.download_url r.download_url
    file_size_bytes := fillSql e.file_size_bytes r.file_size_bytes
    youtube_urls := fillSql e.youtube_urls r.youtube_urls
    extracted_at := some now
    extract_attempts := r.extract_attempts + 1
    last_extract_error := none }

/-- Embeds `update_post_extracted`: the UPDATE hits the rows whose url
matches. -/
def update_post_extracted (db : List PostRow) (url : String) (e : PostExtract)
    (now : Nat) : List PostRow :=
  db.map (fun r => if r.url = url then applyExtractUpdate r e now else r)

/-- Embeds `mark_extract_error` (raw_posts.py lines 50-65): stamps
extracted_at, increments extract_attempts and stores `left(error, 2000)`
on the matching rows. -/
def mark_extract_error (db : List PostRow) (url error : String) (now : Nat) : List PostRow :=
  db.map (fun r =>
    if r.url = url then
      { r with
        extracted_at := some now
        extract_attempts := r.extract_attempts + 1
        last_extract_error := some (String.mk (error.data.take 2000)) }
    else r)

/-! ## Batch item processing (cli.py lines 64-112) -/

/-- An HTTP response as seen by `_run_extract_batch`. -/
structure FetchResp where
  status : Nat
  body : String
deriving DecidableEq

/-- Embeds `client.get` followed by `resp.raise_for_status()`: a transport error
or a non-2xx status becomes an error value. -/
def fetchOutcome (r : Except String FetchResp) : Except String String :=
  match r with
  | .error e => .error e
  | .ok resp =>
    if 200 ≤ resp.status ∧ resp.status < 300 then .ok resp.body
    else .error ("HTTP status " ++ toString resp.status)

/-- The body of the per-row loop of `_run_extract_batch` (cli.py lines
75-110) for one row, with extraction abstracted as `extractF` (the pure
result of extract_post_fields on the fetched body).  On success the row
is merged via update_post_extracted and the updated counter increments;
on any error the code prints the message and moves on — the database is
not touched.  Returns the new database and the updated-flag. -/
def processOne (extractF : String → PostExtract) (fetched : Except String FetchResp)
    (db : List PostRow) (url : String) (now : Nat) : List PostRow × Bool :=
  match fetchOutcome fetched with
  | .error _ => (db, false)
  | .ok body => (update_post_extracted db url (extractF body) now, true)

/-- Embeds `_run_extract_batch` over the selected rows: every row is
processed independently and the function returns the final database,
`processed` (= the number of selected rows) and `updated`. -/
def run_extract_batch (extractF : String → PostExtract)
    (fetches : String → Except String FetchResp) (db : List PostRow)
    (rows : List String) (now : Nat) : List PostRow × Nat × Nat :=
  let final := rows.foldl
    (fun acc url =>
      let step := processOne extractF (fetches url) acc.1 url now
      (step.1, acc.2 + (if step.2 then 1 else 0)))
    (db, 0)
  (final.1, rows.length, final.2)

/-! ## The batch loop of extract_posts (cli.py lines 115-167) -/

/-- Why the loop of `extract_posts` stopped. -/
inductive StopReason where
  | backlogEmpty
  | capReached
  | batchesExhausted
deriving DecidableEq

/-- The cumulative counters reported when the loop stops. -/
structure RunTotals where
  processed : Nat
  updated : Nat
  reason : StopReason
deriving DecidableEq

/-- Embeds the `for batch_num in range(1, repeat + 1)` loop of
extract_posts: `batches i` is the (processed, updated) pair the i-th call
of `_run_extract_batch` would return, `maxPages` is `--max-pages`
(0 = no cap), `fuel` the number of remaining iterations, `i` the next
batch number and `tp`/`tu` the cumulative totals. -/
def extractLoop (batches : Nat → Nat × Nat) (maxPages : Nat) :
    Nat → Nat → Nat → Nat → RunTotals
  | 0, _, tp, tu => ⟨tp, tu, .batchesExhausted⟩
  | fuel + 1, i, tp, tu =>
    if maxPages ≠ 0 ∧ maxPages ≤ tp then ⟨tp, tu, .capReached⟩
    else
      let p := (batches i).1
      let u := (batches i).2
      if p = 0 then ⟨tp + p, tu + u, .backlogEmpty⟩
      else if maxPages ≠ 0 ∧ maxPages ≤ tp + p then ⟨tp + p, tu + u, .capReached⟩
      else extractLoop batches maxPages fuel (i + 1) (tp + p) (tu + u)

/-- Embeds `extract_posts`: run up to `repeatN` batches starting from
batch 1 with zero cumulative totals. -/
def extract_posts (batches : Nat → Nat × Nat) (repeatN maxPages : Nat) : RunTotals :=
  extractLoop batches maxPages repeatN 1 0 0

/-- Sum of the processed counts of batches `i, i+1, ..., i+k-1`. -/
def sumProc (batches : Nat → Nat × Nat) (i : Nat) : Nat → Nat
  | 0 => 0
  | k + 1 => (batches i).1 + sumProc batches (i + 1) k

/-- Sum of the updated counts of batches `i, i+1, ..., i+k-1`. -/
def sumUpd (batches : Nat → Nat × Nat) (i : Nat) : Nat → Nat
  | 0 => 0
  | k + 1 => (batches i).2 + sumUpd batches (i + 1) k

/-! ## Specification-side comparison definitions and concrete fixtures -/

/-- Modelled from the spec sentence "score += 10 per haystack that
case-insensitively equals the name, plus weight per haystack that
case-insensitively contains the name as a substring (exact match and
substring match both apply cumulatively if both hold)": both indicator
terms are added for the same haystack. -/
def specCumulativeScore (g : String) : List (String × Int) → Int
  | [] => 0
  | h :: hs =>
    (if lowStr h.1.data = lowStr g.data then 10 else 0) +
    (if containsSub (lowStr g.data) (lowStr h.1.data) then h.2 else 0) +
    specCumulativeScore g hs

/-- Number of haystacks case-insensitively equal to the candidate. -/
def eqHayCount (g : String) (hs : List (String × Int)) : Int :=
  ((hs.filter (fun h => lowStr h.1.data = lowStr g.data)).length : Int)

/-- Total weight of the haystacks that contain the candidate as a
substring but are not equal to it. -/
def strictContainWeight (g : String) (hs : List (String × Int)) : Int :=
  ((hs.filter (fun h =>
      !(lowStr h.1.data = lowStr g.data) && containsSub (lowStr g.data) (lowStr h.1.data))).map
    (fun h => h.2)).sum

/-- An extraction attempt in which every field is absent or empty. -/
def emptyTextVal (v : Option String) : Prop := v = none ∨ v = some ""

/-- All enrichable fields of the candidate are absent (None) or empty
strings. -/
def candidateAbsent (e : PostExtract) : Prop :=
  emptyTextVal e.title ∧ emptyTextVal e.author ∧ e.published_at = none ∧ e.tags = none ∧
  emptyTextVal e.group_name ∧ emptyTextVal e.system_name ∧ emptyTextVal e.campaign_name ∧
  e.duration_seconds = none ∧ emptyTextVal e.download_url ∧ e.file_size_bytes = none ∧
  e.youtube_urls = none

/-- The two rows agree on every enrichable field of the spec's
PostRecord. -/
def enrichUnchanged (a b : PostRow) : Prop :=
  a.title = b.title ∧ a.author = b.author ∧ a.published_at = b.published_at ∧
  a.tags = b.tags ∧ a.group_name = b.group_name ∧ a.system_name = b.system_name ∧
  a.campaign_name = b.campaign_name ∧ a.duration_seconds = b.duration_seconds ∧
  a.download_url = b.download_url ∧ a.file_size_bytes = b.file_size_bytes ∧
  a.youtube_urls = b.youtube_urls

/-- A fully-populated row used as a concrete witness input. -/
def sampleRow : PostRow :=
  { url := "https://www.rpgmp3.com/giantslayer-session-16/"
    lastmod := some 1
    title := some "Giantslayer Session 16"
    author := some "Hal"
    published_at := some 2
    tags := some ["Giantslayer (The Hosts)"]
    group_name := some "The Hosts"
    system_name := some "Pathfinder"
    campaign_name := some "Giantslayer"
    duration_seconds := some 2892
    duration_source := some "wp_html"
    download_url := some "https://www.rpgmp3.com/audio/gs16.mp3"
    file_size_bytes := some 69600000
    youtube_urls := some ["https://youtube.com/embed/a"]
    extracted_at := some 3
    extract_attempts := 1
    last_extract_error := none }

/-- A concrete batch sequence used as a witness input: the first two
batches return rows, later ones are empty. -/
def sampleBatches : Nat → Nat × Nat :=
  fun i => if i ≤ 2 then (2, 1) else (0, 0)

/-! ## Theorems -/

/-- C5 counterexample: for the input text "Duration: 1:02:03:04", whose
duration text has four colon-separated parts, the extraction pipeline
does NOT leave the duration absent: DURATION_RE captures only the first
three components "1:02:03" and the code stores 3723 seconds, contradicting
the claim that such inputs are rejected. -/
theorem duration_four_part_counterexample :
    extractDurationSeconds "Duration: 1:02:03:04" = some 3723 ∧
    extractDurationSeconds "Duration: 1:02:03:04" ≠ none := by
  constructor
  · decide
  · decide

/-- C5 (amended): duration conversion reads 2-part captures as M:SS and
3-part captures as H:MM:SS ("Duration: 48:12" gives 2892 seconds and
"Duration: 2:08:54" gives 7734 seconds); a duration text with four
colon-separated parts is not rejected — the regex captures its first
three components, so "Duration: 1:02:03:04" yields 3723 seconds. -/
theorem duration_parsing_amended :
    extractDurationSeconds "Duration: 48:12" = some 2892 ∧
    extractDurationSeconds "Duration: 2:08:54" = some 7734 ∧
    extractDurationSeconds "Duration: 1:02:03:04" = some 3723 := by
  refine ⟨by decide, by decide, by decide⟩

/-- C1 counterexample: for candidate "Alpha" and the single haystack
built from the tag "Alpha" (weight 3), the code's score is 10 while the
claim's cumulative rule demands 10 + 3 = 13: the if/elif in the source
never adds the substring weight to an exactly-equal haystack. -/
theorem score_cumulative_counterexample :
    entityScore "Alpha" (haystacks (some ["Alpha"]) none) = 10 ∧
    specCumulativeScore "Alpha" (haystacks (some ["Alpha"]) none) = 13 ∧
    entityScore "Alpha" (haystacks (some ["Alpha"]) none) ≠
      specCumulativeScore "Alpha" (haystacks (some ["Alpha"]) none) := by
  refine ⟨by decide, by decide, by decide⟩

/-- C1 (amended): for every candidate and haystack list, the score equals
10 per case-insensitively equal haystack plus the weight of each haystack
that contains the name but is not equal to it — the two contributions are
mutually exclusive per haystack, so an exactly-equal haystack contributes
exactly 10, not 10 + weight. -/
theorem entity_score_exclusive (g : String) (hs : List (String × Int)) :
    entityScore g hs = 10 * eqHayCount g hs + strictContainWeight g hs := by
  induction hs with
  | nil => simp [entityScore, eqHayCount, strictContainWeight]
  | cons h t ih =>
    by_cases he : lowStr h.1.data = lowStr g.data
    · simp [entityScore, matchBonus, eqHayCount, strictContainWeight,
        List.filter_cons, he] at ih ⊢
      omega
    · by_cases hc : containsSub (lowStr g.data) (lowStr h.1.data)
      · simp [entityScore, matchBonus, eqHayCount, strictContainWeight,
          List.filter_cons, he, hc] at ih ⊢
        omega
      · simp [entityScore, matchBonus, eqHayCount, strictContainWeight,
          List.filter_cons, he, hc] at ih ⊢
        omega

/-- C2 (code bug): when the fetch of a record fails (transport error or
non-2xx status), `_run_extract_batch` only prints the error — it never
calls mark_extract_error, so the row keeps its attempt count, error text
and extracted_at unchanged, although mark_extract_error would have
changed the row; the batch does continue past the failed item. -/
theorem extract_batch_error_not_recorded :
    processOne (fun _ => {}) (Except.error "connect timeout")
        [{ url := "https://example.com/p" }] "https://example.com/p" 5 =
      ([{ url := "https://example.com/p" }], false) ∧
    processOne (fun _ => {}) (Except.ok ⟨500, "server error"⟩)
        [{ url := "https://example.com/p" }] "https://example.com/p" 5 =
      ([{ url := "https://example.com/p" }], false) ∧
    mark_extract_error [{ url := "https://example.com/p" }] "https://example.com/p"
        "connect timeout" 5 ≠ [{ url := "https://example.com/p" }] ∧
    (run_extract_batch (fun _ => {})
        (fun u => if u = "bad" then Except.error "boom" else Except.ok ⟨200, "page"⟩)
        [{ url := "bad" }, { url := "good" }] ["bad", "good"] 7).2 = (2, 1) := by
  refine ⟨by decide, by decide, by decide, by decide⟩

/-- C3: merging an all-absent ExtractionCandidate into any row leaves
every enrichable field unchanged, and, field by field, an extraction
value that is absent (or an empty string, for text fields) never erases
the stored value. -/
theorem update_fill_never_erases (e : PostExtract) (r : PostRow) (now : Nat) :
    (candidateAbsent e → enrichUnchanged (applyExtractUpdate r e now) r) ∧
    (emptyTextVal e.title → (applyExtractUpdate r e now).title = r.title) ∧
    (emptyTextVal e.author → (applyExtractUpdate r e now).author = r.author) ∧
    (e.published_at = none → (applyExtractUpdate r e now).published_at = r.published_at) ∧
    (e.tags = none → (applyExtractUpdate r e now).tags = r.tags) ∧
    (emptyTextVal e.group_name → (applyExtractUpdate r e now).group_name = r.group_name) ∧
    (emptyTextVal e.system_name → (applyExtractUpdate r e now).system_name = r.system_name) ∧
    (emptyTextVal e.campaign_name → (applyExtractUpdate r e now).campaign_name = r.campaign_name) ∧
    (e.duration_seconds = none →
      (applyExtractUpdate r e now).duration_seconds = r.duration_seconds) ∧
    (emptyTextVal e.download_url → (applyExtractUpdate r e now).download_url = r.download_url) ∧
    (e.file_size_bytes = none →
      (applyExtractUpdate r e now).file_size_bytes = r.file_size_bytes) ∧
    (e.youtube_urls = none → (applyExtractUpdate r e now).youtube_urls = r.youtube_urls) := by
  have ht : ∀ new old : Option String, emptyTextVal new → fillTextSql new old = old := by
    intro new old h
    rcases h with rfl | rfl <;> simp [fillTextSql]
  refine ⟨?_, fun h => ht _ _ h, fun h => ht _ _ h, ?_, ?_, fun h => ht _ _ h,
    fun h => ht _ _ h, fun h => ht _ _ h, ?_, fun h => ht _ _ h, ?_, ?_⟩
  · intro ha
    obtain ⟨h1, h2, h3, h4, h5, h6, h7, h8, h9, h10, h11⟩ := ha
    refine ⟨ht _ _ h1, ht _ _ h2, ?_, ?_, ht _ _ h5, ht _ _ h6, ht _ _ h7, ?_,
      ht _ _ h9, ?_, ?_⟩
    · show fillSql e.published_at r.published_at = r.published_at
      rw [h3]
      rfl
    · show fillSql e.tags r.tags = r.tags
      rw [h4]
      rfl
    · show fillSql e.duration_seconds r.duration_seconds = r.duration_seconds
      rw [h8]
      rfl
    · show fillSql e.file_size_bytes r.file_size_bytes = r.file_size_bytes
      rw [h10]
      rfl
    · show fillSql e.youtube_urls r.youtube_urls = r.youtube_urls
      rw [h11]
      rfl
  · intro h
    show fillSql e.published_at r.published_at = r.published_at
    rw [h]
    rfl
  · intro h
    show fillSql e.tags r.tags = r.tags
    rw [h]
    rfl
  · intro h
    show fillSql e.duration_seconds r.duration_seconds = r.duration_seconds
    rw [h]
    rfl
  · intro h
    show fillSql e.file_size_bytes r.file_size_bytes = r.file_size_bytes
    rw [h]
    rfl
  · intro h
    show fillSql e.youtube_urls r.youtube_urls = r.youtube_urls
    rw [h]
    rfl

/-- C3 witness: merging the all-absent candidate into the fully-populated
sample row leaves its enrichable fields unchanged. -/
theorem update_fill_never_erases_witness :
    enrichUnchanged (applyExtractUpdate sampleRow {} 7) sampleRow :=
  (update_fill_never_erases {} sampleRow 7).1
    ⟨Or.inl rfl, Or.inl rfl, rfl, rfl, Or.inl rfl, Or.inl rfl, Or.inl rfl, rfl,
      Or.inl rfl, rfl, rfl⟩

/-- C4 counterexample: the stored row already holds the non-empty title
"Old Title", the extraction attempt supplies the different non-empty
title "New Title", and the merge REPLACES the stored value — contradicting
the claim that a populated field is left unchanged. -/
theorem merge_overwrites_counterexample :
    (applyExtractUpdate { url := "u", title := some "Old Title" }
        { title := some "New Title" } 1).title = some "New Title" ∧
    (applyExtractUpdate { url := "u", title := some "Old Title" }
        { title := some "New Title" } 1).title ≠ some "Old Title" := by
  refine ⟨by decide, by decide⟩

/-- C4 (amended): the merge of update_post_extracted is
overwrite-unless-empty, not fill-if-empty: for every enrichable field, a
non-empty new value always replaces the stored value (whether or not the
stored field was populated), while an absent (or, for text fields,
empty-string) new value leaves the stored value unchanged. -/
theorem merge_overwrite_unless_empty (e : PostExtract) (r : PostRow) (now : Nat) :
    (∀ s, e.title = some s → s ≠ "" → (applyExtractUpdate r e now).title = some s) ∧
    (emptyTextVal e.title → (applyExtractUpdate r e now).title = r.title) ∧
    (∀ s, e.author = some s → s ≠ "" → (applyExtractUpdate r e now).author = some s) ∧
    (emptyTextVal e.author → (applyExtractUpdate r e now).author = r.author) ∧
    (∀ v, e.published_at = some v → (applyExtractUpdate r e now).published_at = some v) ∧
    (e.published_at = none → (applyExtractUpdate r e now).published_at = r.published_at) ∧
    (∀ v, e.tags = some v → (applyExtractUpdate r e now).tags = some v) ∧
    (e.tags = none → (applyExtractUpdate r e now).tags = r.tags) ∧
    (∀ s, e.group_name = some s → s ≠ "" → (applyExtractUpdate r e now).group_name = some s) ∧
    (emptyTextVal e.group_name → (applyExtractUpdate r e now).group_name = r.group_name) ∧
    (∀ s, e.system_name = some s → s ≠ "" →
      (applyExtractUpdate r e now).system_name = some s) ∧
    (emptyTextVal e.system_name → (applyExtractUpdate r e now).system_name = r.system_name) ∧
    (∀ s, e.campaign_name = some s → s ≠ "" →
      (applyExtractUpdate r e now).campaign_name = some s) ∧
    (emptyTextVal e.campaign_name →
      (applyExtractUpdate r e now).campaign_name = r.campaign_name) ∧
    (∀ v, e.duration_seconds = some v →
      (applyExtractUpdate r e now).duration_seconds = some v) ∧
    (e.duration_seconds = none →
      (applyExtractUpdate r e now).duration_seconds = r.duration_seconds) ∧
    (∀ s, e.download_url = some s → s ≠ "" →
      (applyExtractUpdate r e now).download_url = some s) ∧
    (emptyTextVal e.download_url → (applyExtractUpdate r e now).download_url = r.download_url) ∧
    (∀ v, e.file_size_bytes = some v →
      (applyExtractUpdate r e now).file_size_bytes = some v) ∧
    (e.file_size_bytes = none →
      (applyExtractUpdate r e now).file_size_bytes = r.file_size_bytes) ∧
    (∀ v, e.youtube_urls = some v → (applyExtractUpdate r e now).youtube_urls = some v) ∧
    (e.youtube_urls = none → (applyExtractUpdate r e now).youtube_urls = r.youtube_urls) := by
  have ht : ∀ new old : Option String, emptyTextVal new → fillTextSql new old = old := by
    intro new old h
    rcases h with rfl | rfl <;> simp [fillTextSql]
  have htp : ∀ (new old : Option String) (s : String), new = some s → s ≠ "" →
      fillTextSql new old = some s := by
    intro new old s h hs
    subst h
    simp [fillTextSql, hs]
  have hvp : ∀ {α : Type} (new old : Option α) (v : α), new = some v → fillSql new old = some v := by
    intro α new old v h
    subst h
    simp [fillSql]
  have hvn : ∀ {α : Type} (new old : Option α), new = none → fillSql new old = old := by
    intro α new old h
    subst h
    simp [fillSql]
  exact ⟨fun s h hs => htp _ _ _ h hs, fun h => ht _ _ h,
    fun s h hs => htp _ _ _ h hs, fun h => ht _ _ h,
    fun v h => hvp _ _ _ h, fun h => hvn _ _ h,
    fun v h => hvp _ _ _ h, fun h => hvn _ _ h,
    fun s h hs => htp _ _ _ h hs, fun h => ht _ _ h,
    fun s h hs => htp _ _ _ h hs, fun h => ht _ _ h,
    fun s h hs => htp _ _ _ h hs, fun h => ht _ _ h,
    fun v h => hvp _ _ _ h, fun h => hvn _ _ h,
    fun s h hs => htp _ _ _ h hs, fun h => ht _ _ h,
    fun v h => hvp _ _ _ h, fun h => hvn _ _ h,
    fun v h => hvp _ _ _ h, fun h => hvn _ _ h⟩

/-- C4 amended witness: a non-empty new title replaces the title of the
fully-populated sample row. -/
theorem merge_overwrite_unless_empty_witness :
    (applyExtractUpdate sampleRow { title := some "New Title" } 9).title = some "New Title" :=
  (merge_overwrite_unless_empty { title := some "New Title" } sampleRow 9).1 "New Title" rfl
    (by decide)

theorem splitOnC_no_sep (sep : Char) :
    ∀ xs : List Char, (∀ c ∈ xs, c ≠ sep) → splitOnC sep xs = [xs]
  | [], _ => rfl
  | c :: rest, hx => by
    have hc : c ≠ sep := hx c (by simp)
    have ih := splitOnC_no_sep sep rest (fun d hd => hx d (by simp [hd]))
    simp only [splitOnC, if_neg hc, ih]

theorem splitOnC_append (sep : Char) :
    ∀ xs ys : List Char, (∀ c ∈ xs, c ≠ sep) →
      splitOnC sep (xs ++ sep :: ys) = xs :: splitOnC sep ys
  | [], ys, _ => by simp [splitOnC]
  | c :: rest, ys, hx => by
    have hc : c ≠ sep := hx c (by simp)
    have ih := splitOnC_append sep rest ys (fun d hd => hx d (by simp [hd]))
    simp [splitOnC, if_neg hc, ih]

theorem isDigit_ne_colon (c : Char) (h : c.isDigit = true) : c ≠ ':' := by
  intro he
  subst he
  exact absurd h (by decide)

theorem digitsToNat_isSome (cs : List Char) (hne : cs ≠ [])
    (hd : cs.all Char.isDigit = true) : (digitsToNat cs).isSome := by
  have he : cs.isEmpty = false := by
    cases cs with
    | nil => exact absurd rfl hne
    | cons a l => rfl
  simp [digitsToNat, he, hd]

theorem hms_two_isSome (a b : List Char) (hane : a ≠ []) (had : a.all Char.isDigit = true)
    (hbne : b ≠ []) (hbd : b.all Char.isDigit = true) :
    (hmsToSeconds (a ++ ':' :: b)).isSome := by
  have hanc : ∀ c ∈ a, c ≠ ':' := fun c hc =>
    isDigit_ne_colon c (by exact List.all_eq_true.mp had c hc)
  have hbnc : ∀ c ∈ b, c ≠ ':' := fun c hc =>
    isDigit_ne_colon c (by exact List.all_eq_true.mp hbd c hc)
  have hsplit : splitOnC ':' (a ++ ':' :: b) = [a, b] := by
    rw [splitOnC_append ':' a b hanc, splitOnC_no_sep ':' b hbnc]
  obtain ⟨x, hx⟩ := Option.isSome_iff_exists.mp (digitsToNat_isSome a hane had)
  obtain ⟨y, hy⟩ := Option.isSome_iff_exists.mp (digitsToNat_isSome b hbne hbd)
  unfold hmsToSeconds
  rw [hsplit]
  simp [hx, hy]

theorem hms_three_isSome (a b c : List Char) (hane : a ≠ []) (had : a.all Char.isDigit = true)
    (hbne : b ≠ []) (hbd : b.all Char.isDigit = true)
    (hcne : c ≠ []) (hcd : c.all Char.isDigit = true) :
    (hmsToSeconds (a ++ ':' :: (b ++ ':' :: c))).isSome := by
  have hanc : ∀ x ∈ a, x ≠ ':' := fun x hx =>
    isDigit_ne_colon x (by exact List.all_eq_true.mp had x hx)
  have hbnc : ∀ x ∈ b, x ≠ ':' := fun x hx =>
    isDigit_ne_colon x (by exact List.all_eq_true.mp hbd x hx)
  have hcnc : ∀ x ∈ c, x ≠ ':' := fun x hx =>
    isDigit_ne_colon x (by exact List.all_eq_true.mp hcd x hx)
  have hsplit : splitOnC ':' (a ++ ':' :: (b ++ ':' :: c)) = [a, b, c] := by
    rw [splitOnC_append ':' a _ hanc, splitOnC_append ':' b c hbnc,
      splitOnC_no_sep ':' c hcnc]
  obtain ⟨x, hx⟩ := Option.isSome_iff_exists.mp (digitsToNat_isSome a hane had)
  obtain ⟨y, hy⟩ := Option.isSome_iff_exists.mp (digitsToNat_isSome b hbne hbd)
  obtain ⟨z, hz⟩ := Option.isSome_iff_exists.mp (digitsToNat_isSome c hcne hcd)
  unfold hmsToSeconds
  rw [hsplit]
  simp [hx, hy, hz]

theorem matchMMTail_hms (hh : List Char) (hne : hh ≠ []) (hd : hh.all Char.isDigit = true)
    (cs cap : List Char) (h : matchMMTail hh cs = some cap) : (hmsToSeconds cap).isSome := by
  unfold matchMMTail at h
  split at h
  · rename_i d1 d2 rest
    by_cases hdd : (d1.isDigit && d2.isDigit) = true
    · rw [if_pos hdd] at h
      obtain ⟨hd1, hd2⟩ : d1.isDigit = true ∧ d2.isDigit = true := by simpa using hdd
      split at h
      · rename_i e1 e2 rest2
        by_cases hee : (e1.isDigit && e2.isDigit) = true
        · rw [if_pos hee] at h
          obtain ⟨he1, he2⟩ : e1.isDigit = true ∧ e2.isDigit = true := by simpa using hee
          cases h
          have := hms_three_isSome hh [d1, d2] [e1, e2] hne hd (by simp)
            (by simp [hd1, hd2]) (by simp) (by simp [he1, he2])
          simpa using this
        · rw [if_neg hee] at h
          cases h
          have := hms_two_isSome hh [d1, d2] hne hd (by simp) (by simp [hd1, hd2])
          simpa using this
      · cases h
        have := hms_two_isSome hh [d1, d2] hne hd (by simp) (by simp [hd1, hd2])
        simpa using this
    · rw [if_neg hdd] at h
      exact absurd h (by simp)
  · exact absurd h (by simp)

theorem matchClockAt_hms (cs cap : List Char) (h : matchClockAt cs = some cap) :
    (hmsToSeconds cap).isSome := by
  unfold matchClockAt at h
  split at h
  · rename_i c1 c2 rest
    by_cases h1 : c1.isDigit = true
    · rw [if_pos h1] at h
      by_cases h2 : c2.isDigit = true
      · rw [if_pos h2] at h
        split at h
        · rename_i rest2
          exact matchMMTail_hms [c1, c2] (by simp) (by simp [h1, h2]) rest2 cap h
        · exact absurd h (by simp)
      · rw [if_neg h2] at h
        by_cases h3 : c2 = ':'
        · rw [if_pos h3] at h
          exact matchMMTail_hms [c1] (by simp) (by simp [h1]) rest cap h
        · rw [if_neg h3] at h
          exact absurd h (by simp)
    · rw [if_neg h1] at h
      exact absurd h (by simp)
  · exact absurd h (by simp)

/-- C10: the raising branch of _hms_to_seconds is unreachable from the
extraction pipeline: every group-1 capture of DURATION_RE converts
successfully (the capture has exactly one or two colons by construction),
so the duration step of extract_post_fields is total and never raises. -/
theorem duration_conversion_never_raises (text : String) (cap : List Char)
    (h : durationSearch text.data = some cap) :
    (hmsToSeconds cap).isSome ∧ (extractDurationSeconds text).isSome := by
  have hmain : ∀ (cs cap' : List Char), durationSearch cs = some cap' →
      (hmsToSeconds cap').isSome := by
    intro cs
    induction cs with
    | nil => intro cap' h'; simp [durationSearch] at h'
    | cons c rest ih =>
      intro cap' h'
      unfold durationSearch at h'
      split at h'
      · split at h'
        · rename_i hclock
          cases h'
          exact matchClockAt_hms _ _ hclock
        · exact ih cap' h'
      · exact ih cap' h'
  refine ⟨hmain _ _ h, ?_⟩
  unfold extractDurationSeconds
  rw [h]
  exact hmain _ _ h

/-- C10 witness: the capture "48:12" of the text "Duration: 48:12"
converts successfully and the extracted duration is present. -/
theorem duration_conversion_never_raises_witness :
    (hmsToSeconds "48:12".data).isSome ∧ (extractDurationSeconds "Duration: 48:12").isSome :=
  duration_conversion_never_raises "Duration: 48:12" "48:12".data (by decide)

/-- C7: clean_campaign_name removes the recording-artifact markers and is
absent exactly when the cleaned string is empty, equals "session" or
"part" case-insensitively, or is shorter than 3 characters; in
particular "Kingmaker Session 44 2" cleans to "Kingmaker" and
"Session 00 Character Creation" cleans to absent. -/
theorem clean_campaign_characterization :
    (∀ name : String,
        clean_campaign_name (some name) = none ↔
          cleanedCore name = [] ∨ lowStr (cleanedCore name) = "session".data ∨
          lowStr (cleanedCore name) = "part".data ∨ (cleanedCore name).length < 3) ∧
    clean_campaign_name (some "Kingmaker Session 44 2") = some "Kingmaker" ∧
    clean_campaign_name (some "Session 00 Character Creation") = none := by
  refine ⟨?_, by decide, by decide⟩
  intro name
  by_cases hn : name = ""
  · subst hn
    constructor
    · intro _
      exact Or.inl (by decide)
    · intro _
      decide
  · simp only [clean_campaign_name, if_neg hn]
    by_cases h1 : (cleanedCore name).isEmpty
    · have h1' : cleanedCore name = [] := by
        cases hcc : cleanedCore name with
        | nil => rfl
        | cons a l => rw [hcc] at h1; simp at h1
      simp [h1, h1']
    · have h1' : ¬cleanedCore name = [] := by
        intro hx
        rw [hx] at h1
        simp at h1
      rw [if_neg h1]
      by_cases h2 : lowStr (cleanedCore name) = "session".data ∨
          lowStr (cleanedCore name) = "part".data
      · rw [if_pos h2]
        simp only [true_iff]
        tauto
      · rw [if_neg h2]
        by_cases h3 : (cleanedCore name).length < 3
        · rw [if_pos h3]
          simp only [true_iff]
          tauto
        · rw [if_neg h3]
          constructor
          · intro hx
            exact absurd hx (by simp)
          · intro hx
            rcases hx with hx | hx | hx | hx
            · exact absurd hx h1'
            · exact absurd (Or.inl hx) h2
            · exact absurd (Or.inr hx) h2
            · exact absurd hx h3

theorem pickMaxGo_eq_or_mem (b : String × Int) (l : List (String × Int)) :
    pickMaxGo b l = b ∨ pickMaxGo b l ∈ l := by
  induction l generalizing b with
  | nil => exact Or.inl rfl
  | cons x xs ih =>
    simp only [pickMaxGo]
    rcases ih (if b.2 < x.2 then x else b) with h | h
    · rw [h]
      by_cases hc : b.2 < x.2
      · right
        simp [hc]
      · left
        simp [hc]
    · right
      exact List.mem_cons_of_mem x h

theorem pickMaxGo_ge (b : String × Int) (l : List (String × Int)) :
    b.2 ≤ (pickMaxGo b l).2 ∧ ∀ x ∈ l, x.2 ≤ (pickMaxGo b l).2 := by
  induction l generalizing b with
  | nil => exact ⟨le_refl _, by simp⟩
  | cons x xs ih =>
    simp only [pickMaxGo]
    obtain ⟨h1, h2⟩ := ih (if b.2 < x.2 then x else b)
    constructor
    · refine le_trans ?_ h1
      by_cases hc : b.2 < x.2
      · simp [hc]
        omega
      · simp [hc]
    · intro y hy
      rcases List.mem_cons.mp hy with rfl | hy'
      · refine le_trans ?_ h1
        by_cases hc : b.2 < y.2
        · simp [hc]
        · simp [hc]
          omega
      · exact h2 y hy'

theorem pickMaxGo_first (b : String × Int) (l : List (String × Int)) :
    ∃ i : Nat, (b :: l)[i]? = some (pickMaxGo b l) ∧
      ∀ j : Nat, j < i → ∀ y : String × Int,
        (b :: l)[j]? = some y → y.2 < (pickMaxGo b l).2 := by
  induction l generalizing b with
  | nil =>
    refine ⟨0, by simp [pickMaxGo], ?_⟩
    intro j hj
    omega
  | cons x xs ih =>
    by_cases hc : b.2 < x.2
    · obtain ⟨i, hget, hlt⟩ := ih x
      have hres : pickMaxGo b (x :: xs) = pickMaxGo x xs := by simp [pickMaxGo, hc]
      refine ⟨i + 1, ?_, ?_⟩
      · rw [hres]
        simpa using hget
      · intro j hj y hy
        rw [hres]
        cases j with
        | zero =>
          simp at hy
          subst hy
          calc b.2 < x.2 := hc
            _ ≤ (pickMaxGo x xs).2 := (pickMaxGo_ge x xs).1
        | succ j' =>
          have hy' : (x :: xs)[j']? = some y := by simpa using hy
          exact hlt j' (by omega) y hy'
    · obtain ⟨i, hget, hlt⟩ := ih b
      have hres : pickMaxGo b (x :: xs) = pickMaxGo b xs := by simp [pickMaxGo, hc]
      cases i with
      | zero =>
        refine ⟨0, ?_, ?_⟩
        · rw [hres]
          simpa using hget
        · intro j hj
          omega
      | succ i' =>
        refine ⟨i' + 2, ?_, ?_⟩
        · rw [hres]
          simpa using hget
        · intro j hj y hy
          rw [hres]
          cases j with
          | zero =>
            simp at hy
            subst hy
            exact hlt 0 (by omega) b (by simp)
          | succ j' =>
            cases j' with
            | zero =>
              simp at hy
              subst hy
              have hb : b.2 < (pickMaxGo b xs).2 := hlt 0 (by omega) b (by simp)
              have hxb : ¬b.2 < x.2 := hc
              omega
            | succ j'' =>
              have hy' : (b :: xs)[j'' + 1]? = some y := by simpa using hy
              exact hlt (j'' + 1) (by omega) y hy'

theorem mem_dictKeys_aux (l : List String) :
    ∀ (acc : List String) (a : String),
      (a ∈ l.foldl (fun acc g => if g ∈ acc then acc else acc ++ [g]) acc) ↔
        a ∈ acc ∨ a ∈ l := by
  induction l with
  | nil =>
    intro acc a
    simp
  | cons g l' ih =>
    intro acc a
    simp only [List.foldl_cons]
    rw [ih]
    by_cases hg : g ∈ acc
    · rw [if_pos hg]
      constructor
      · rintro (h | h)
        · exact Or.inl h
        · exact Or.inr (List.mem_cons_of_mem g h)
      · rintro (h | h)
        · exact Or.inl h
        · rcases List.mem_cons.mp h with rfl | h'
          · exact Or.inl hg
          · exact Or.inr h'
    · rw [if_neg hg]
      simp only [List.mem_append, List.mem_singleton, List.mem_cons]
      tauto

theorem mem_dictKeys (known : List String) (a : String) : a ∈ dictKeys known ↔ a ∈ known := by
  unfold dictKeys
  rw [mem_dictKeys_aux]
  simp

theorem foldl_insert_eq (l : List String) :
    ∀ acc, l.Nodup → (∀ g ∈ l, g ∉ acc) →
      l.foldl (fun acc g => if g ∈ acc then acc else acc ++ [g]) acc = acc ++ l := by
  induction l with
  | nil =>
    intro acc _ _
    simp
  | cons g l' ih =>
    intro acc hnd hdisj
    have hg : g ∉ acc := hdisj g (by simp)
    have hdisj' : ∀ x ∈ l', x ∉ acc ++ [g] := by
      intro x hx hmem
      rcases List.mem_append.mp hmem with hxa | hxg
      · exact hdisj x (List.mem_cons_of_mem g hx) hxa
      · have hxg' : x = g := by simpa using hxg
        subst hxg'
        exact (List.nodup_cons.mp hnd).1 hx
    simp only [List.foldl_cons]
    rw [if_neg hg, ih (acc ++ [g]) (List.nodup_cons.mp hnd).2 hdisj']
    simp

theorem dictKeys_eq (known : List String) (h : known.Nodup) : dictKeys known = known := by
  unfold dictKeys
  rw [foldl_insert_eq known [] h (by simp)]
  simp

theorem haystacks_wt_pos (tags : Option (List String)) (pt : Option String) :
    ∀ x ∈ haystacks tags pt, x.2 = 3 ∨ x.2 = 1 := by
  intro x hx
  unfold haystacks at hx
  rcases List.mem_append.mp hx with h | h
  · match tags with
    | none => simp at h
    | some ts =>
      simp only [List.mem_flatMap] at h
      obtain ⟨t, _, hmem⟩ := h
      rcases List.mem_cons.mp hmem with rfl | hmem'
      · left
        rfl
      · simp only [List.mem_map] at hmem'
        obtain ⟨m, _, rfl⟩ := hmem'
        left
        rfl
  · match pt with
    | none => simp at h
    | some p =>
      by_cases hp : p = ""
      · simp [hp] at h
      · simp [hp] at h
        subst h
        right
        rfl

theorem entityScore_nonneg (g : String) (hs : List (String × Int))
    (hw : ∀ x ∈ hs, x.2 = 3 ∨ x.2 = 1) : 0 ≤ entityScore g hs := by
  induction hs with
  | nil => simp [entityScore]
  | cons h t ih =>
    have hh := hw h (by simp)
    have ht := ih (fun x hx => hw x (by simp [hx]))
    have hb : 0 ≤ matchBonus g h := by
      unfold matchBonus
      split_ifs
      · omega
      · rcases hh with h3 | h1 <;> omega
      · omega
    simp only [entityScore]
    omega

/-- C6: over a duplicate-free reference list, entity inference returns a
candidate with maximal score, ties are broken by reference-list order
(the returned candidate strictly beats every earlier candidate), a best
score of zero yields absence, and infer_system_name runs the same
selection as infer_group_name. -/
theorem infer_entity_selection :
    (∀ (known : List String) (tags : Option (List String)) (page_text : Option String),
        known.Nodup →
        (∀ g : String, infer_group_name known tags page_text = some g →
            g ∈ known ∧ 0 < entityScore g (haystacks tags page_text) ∧
            (∀ g' ∈ known,
              entityScore g' (haystacks tags page_text) ≤
                entityScore g (haystacks tags page_text)) ∧
            ∃ i : Nat, known[i]? = some g ∧
              ∀ j : Nat, j < i → ∀ g' : String, known[j]? = some g' →
                entityScore g' (haystacks tags page_text) <
                  entityScore g (haystacks tags page_text)) ∧
        (infer_group_name known tags page_text = none ↔
          known = [] ∨ ∀ g ∈ known, entityScore g (haystacks tags page_text) = 0)) ∧
    (∀ (known : List String) (tags : Option (List String)) (page_text : Option String),
        infer_system_name known tags page_text = infer_group_name known tags page_text) := by
  constructor
  · intro known tags page_text hnd
    match known with
    | [] =>
      constructor
      · intro g hg
        simp [infer_group_name] at hg
      · simp [infer_group_name]
    | k :: ks =>
      have hsc : ∀ g ∈ k :: ks,
          dictScore (k :: ks) (haystacks tags page_text) g =
            entityScore g (haystacks tags page_text) := by
        intro g hg
        unfold dictScore
        rw [List.count_eq_one_of_mem hnd hg]
        simp
      have hitems :
          (dictKeys (k :: ks)).map
              (fun g => (g, dictScore (k :: ks) (haystacks tags page_text) g)) =
            (k :: ks).map (fun g => (g, entityScore g (haystacks tags page_text))) := by
        rw [dictKeys_eq _ hnd]
        exact List.map_congr_left (fun g hg => by rw [hsc g hg])
      rcases hrp : pickMaxGo (k, entityScore k (haystacks tags page_text))
          (ks.map (fun g => (g, entityScore g (haystacks tags page_text)))) with ⟨bn, bs⟩
      have hinf : infer_group_name (k :: ks) tags page_text =
          if 0 < bs then some bn else none := by
        simp [infer_group_name, hitems, pickMax, hrp]
      have hmem0 := pickMaxGo_eq_or_mem (k, entityScore k (haystacks tags page_text))
        (ks.map (fun g => (g, entityScore g (haystacks tags page_text))))
      rw [hrp] at hmem0
      have hpair : bn ∈ k :: ks ∧ bs = entityScore bn (haystacks tags page_text) := by
        rcases hmem0 with heq | hmem'
        · have h1 : bn = k := congrArg Prod.fst heq
          have h2 : bs = entityScore k (haystacks tags page_text) := congrArg Prod.snd heq
          subst h1
          exact ⟨by simp, h2⟩
        · simp only [List.mem_map] at hmem'
          obtain ⟨g0, hg0, heq⟩ := hmem'
          have h1 : g0 = bn := congrArg Prod.fst heq
          have h2 : entityScore g0 (haystacks tags page_text) = bs := congrArg Prod.snd heq
          subst h1
          exact ⟨List.mem_cons_of_mem k hg0, h2.symm⟩
      have hge0 := pickMaxGo_ge (k, entityScore k (haystacks tags page_text))
        (ks.map (fun g => (g, entityScore g (haystacks tags page_text))))
      rw [hrp] at hge0
      have hge : ∀ g' ∈ k :: ks, entityScore g' (haystacks tags page_text) ≤ bs := by
        intro g' hg'
        rcases List.mem_cons.mp hg' with rfl | hg''
        · exact hge0.1
        · exact hge0.2 (g', entityScore g' (haystacks tags page_text))
            (List.mem_map.mpr ⟨g', hg'', rfl⟩)
      have hfirst0 := pickMaxGo_first (k, entityScore k (haystacks tags page_text))
        (ks.map (fun g => (g, entityScore g (haystacks tags page_text))))
      rw [hrp] at hfirst0
      constructor
      · intro g hg
        rw [hinf] at hg
        by_cases h0 : 0 < bs
        · rw [if_pos h0] at hg
          cases hg
          refine ⟨hpair.1, ?_, ?_, ?_⟩
          · rw [← hpair.2]
            exact h0
          · intro g' hg'
            rw [← hpair.2]
            exact hge g' hg'
          · obtain ⟨i, hgeti, hlti⟩ := hfirst0
            refine ⟨i, ?_, ?_⟩
            · have hmi : ((k :: ks).map
                  (fun g => (g, entityScore g (haystacks tags page_text))))[i]? =
                    some (bn, bs) := by
                simpa using hgeti
              rw [List.getElem?_map] at hmi
              match hk : (k :: ks)[i]? with
              | none =>
                rw [hk] at hmi
                simp at hmi
              | some g0 =>
                rw [hk] at hmi
                simp at hmi
                rw [hmi.1]
            · intro j hj g' hgj
              have hj2 : ((k :: ks).map
                  (fun g => (g, entityScore g (haystacks tags page_text))))[j]? =
                    some (g', entityScore g' (haystacks tags page_text)) := by
                rw [List.getElem?_map, hgj]
                rfl
              have hj3 : ((k, entityScore k (haystacks tags page_text)) ::
                  ks.map (fun g => (g, entityScore g (haystacks tags page_text))))[j]? =
                    some (g', entityScore g' (haystacks tags page_text)) := by
                simpa using hj2
              have hlt := hlti j hj (g', entityScore g' (haystacks tags page_text)) hj3
              rw [← hpair.2]
              simpa using hlt
        · rw [if_neg h0] at hg
          exact absurd hg (by simp)
      · rw [hinf]
        constructor
        · intro hnone
          by_cases h0 : 0 < bs
          · rw [if_pos h0] at hnone
            exact absurd hnone (by simp)
          · right
            intro g hg
            have h1 := hge g hg
            have h2 : 0 ≤ entityScore g (haystacks tags page_text) :=
              entityScore_nonneg g _ (haystacks_wt_pos tags page_text)
            omega
        · intro hr
          rcases hr with hke | hall
          · exact absurd hke (by simp)
          · have hbs0 : bs = 0 := by
              rw [hpair.2]
              exact hall bn hpair.1
            rw [if_neg (by omega)]
  · intro known tags page_text
    rfl

/-- C6 witness: the characterization applied to the duplicate-free
reference list ["Alpha", "Beta"] with the single tag "Beta". -/
theorem infer_entity_selection_witness :
    infer_group_name ["Alpha", "Beta"] (some ["Beta"]) none = none ↔
      (["Alpha", "Beta"] = [] ∨
        ∀ g ∈ ["Alpha", "Beta"], entityScore g (haystacks (some ["Beta"]) none) = 0) :=
  (infer_entity_selection.1 ["Alpha", "Beta"] (some ["Beta"]) none (by decide)).2

/-- C8: rule 2 of campaign inference derives the campaign from the URL
slug (".../giantslayer-session-16/" yields "Giantslayer"); when the
URL-derived name case-insensitively equals the system name the rule is
rejected and inference continues with the title-derived rule 3, and
otherwise the URL-derived name is returned. -/
theorem campaign_url_rule :
    infer_campaign_from_url (some "https://www.rpgmp3.com/giantslayer-session-16/") =
      some "Giantslayer" ∧
    (∀ (title : Option String) (sys url c : String),
        sys ≠ "" →
        infer_campaign_from_url (some url) = some c →
        lowStr c.data = lowStr sys.data →
        infer_campaign_name none title none (some sys) (some url) =
          titleFallback title (some (lowStr sys.data))) ∧
    (∀ (title system_name : Option String) (url c : String),
        infer_campaign_from_url (some url) = some c →
        c ≠ "" →
        optEqLow c.data (lowOpt system_name) = false →
        infer_campaign_name none title none system_name (some url) = some c) := by
  refine ⟨by decide, ?_, ?_⟩
  · intro title sys url c hsys h hlow
    simp only [infer_campaign_name, lowOpt, h]
    rw [if_neg hsys]
    by_cases hc : c = ""
    · simp [hc]
    · simp [hc, optEqLow, hlow]
  · intro title system_name url c h hc hopt
    simp only [infer_campaign_name, h]
    simp [hc, hopt]

/-- C8 witness: with system name "giantslayer" the URL-derived candidate
"Giantslayer" is rejected and the result is the title fallback. -/
theorem campaign_url_rule_witness :
    infer_campaign_name none (some "Epic Story Session 16") none (some "giantslayer")
        (some "https://www.rpgmp3.com/giantslayer-session-16/") =
      titleFallback (some "Epic Story Session 16") (some (lowStr "giantslayer".data)) :=
  campaign_url_rule.2.1 (some "Epic Story Session 16") "giantslayer"
    "https://www.rpgmp3.com/giantslayer-session-16/" "Giantslayer"
    (by decide) (by decide) (by decide)

theorem extractLoop_spec (b : Nat → Nat × Nat) (mp : Nat) :
    ∀ (fuel i tp tu : Nat), (mp = 0 ∨ tp < mp) →
      ∃ k : Nat, k ≤ fuel ∧
        (extractLoop b mp fuel i tp tu).processed = tp + sumProc b i k ∧
        (extractLoop b mp fuel i tp tu).updated = tu + sumUpd b i k ∧
        (∀ j : Nat, j + 1 < k →
          (b (i + j)).1 ≠ 0 ∧ ¬(mp ≠ 0 ∧ mp ≤ tp + sumProc b i (j + 1))) ∧
        (((extractLoop b mp fuel i tp tu).reason = StopReason.backlogEmpty ∧
            ∃ k' : Nat, k = k' + 1 ∧ (b (i + k')).1 = 0) ∨
         ((extractLoop b mp fuel i tp tu).reason = StopReason.capReached ∧
            ∃ k' : Nat, k = k' + 1 ∧ (b (i + k')).1 ≠ 0 ∧ mp ≠ 0 ∧
              mp ≤ tp + sumProc b i k) ∨
         ((extractLoop b mp fuel i tp tu).reason = StopReason.batchesExhausted ∧
            k = fuel ∧ (k = 0 ∨ ∃ k' : Nat, k = k' + 1 ∧ (b (i + k')).1 ≠ 0 ∧
              ¬(mp ≠ 0 ∧ mp ≤ tp + sumProc b i k)))) := by
  intro fuel
  induction fuel with
  | zero =>
    intro i tp tu _hpre
    refine ⟨0, le_refl 0, ?_, ?_, ?_, ?_⟩
    · simp [extractLoop, sumProc]
    · simp [extractLoop, sumUpd]
    · intro j hj
      omega
    · right
      right
      exact ⟨rfl, rfl, Or.inl rfl⟩
  | succ fuel ih =>
    intro i tp tu hpre
    have hprec : ¬(mp ≠ 0 ∧ mp ≤ tp) := by
      rcases hpre with h | h
      · intro hx
        exact hx.1 h
      · intro hx
        omega
    have hstep : extractLoop b mp (fuel + 1) i tp tu =
        (if (b i).1 = 0 then
          RunTotals.mk (tp + (b i).1) (tu + (b i).2) StopReason.backlogEmpty
        else if mp ≠ 0 ∧ mp ≤ tp + (b i).1 then
          RunTotals.mk (tp + (b i).1) (tu + (b i).2) StopReason.capReached
        else extractLoop b mp fuel (i + 1) (tp + (b i).1) (tu + (b i).2)) := by
      simp only [extractLoop]
      rw [if_neg hprec]
    by_cases hp : (b i).1 = 0
    · rw [hstep, if_pos hp]
      refine ⟨1, by omega, ?_, ?_, ?_, ?_⟩
      · simp [sumProc]
      · simp [sumUpd]
      · intro j hj
        omega
      · left
        exact ⟨rfl, 0, rfl, by simpa using hp⟩
    · by_cases hcap : mp ≠ 0 ∧ mp ≤ tp + (b i).1
      · rw [hstep, if_neg hp, if_pos hcap]
        refine ⟨1, by omega, ?_, ?_, ?_, ?_⟩
        · simp [sumProc]
        · simp [sumUpd]
        · intro j hj
          omega
        · right
          left
          refine ⟨rfl, 0, rfl, by simpa using hp, hcap.1, ?_⟩
          have hsum : sumProc b i 1 = (b i).1 + sumProc b (i + 1) 0 := rfl
          have hz : sumProc b (i + 1) 0 = 0 := rfl
          have := hcap.2
          omega
      · have hpre' : mp = 0 ∨ tp + (b i).1 < mp := by
          by_cases hm : mp = 0
          · exact Or.inl hm
          · right
            rcases not_and_or.mp hcap with h | h
            · exact absurd hm (by simpa using h)
            · omega
        obtain ⟨k', hk'le, hproc, hupd, hnostop, hreason⟩ :=
          ih (i + 1) (tp + (b i).1) (tu + (b i).2) hpre'
        rw [hstep, if_neg hp, if_neg hcap]
        have hsum1 : ∀ m : Nat, sumProc b i (m + 1) = (b i).1 + sumProc b (i + 1) m :=
          fun m => rfl
        have hsumu : ∀ m : Nat, sumUpd b i (m + 1) = (b i).2 + sumUpd b (i + 1) m :=
          fun m => rfl
        refine ⟨k' + 1, by omega, ?_, ?_, ?_, ?_⟩
        · rw [hproc, hsum1 k']
          omega
        · rw [hupd, hsumu k']
          omega
        · intro j hj
          cases j with
          | zero =>
            refine ⟨by simpa using hp, ?_⟩
            intro hx
            apply hcap
            refine ⟨hx.1, ?_⟩
            have h2 := hx.2
            have := hsum1 0
            have hz : sumProc b (i + 1) 0 = 0 := rfl
            omega
          | succ j' =>
            obtain ⟨hb1, hb2⟩ := hnostop j' (by omega)
            constructor
            · have hidx : i + (j' + 1) = i + 1 + j' := by omega
              rw [hidx]
              exact hb1
            · intro hx
              apply hb2
              refine ⟨hx.1, ?_⟩
              have h2 := hx.2
              have := hsum1 (j' + 1)
              omega
        · rcases hreason with ⟨hres, k'', hk'', hb0⟩ | ⟨hres, k'', hk'', hbne, hmp, hle⟩ |
            ⟨hres, hkf, hrest⟩
          · left
            refine ⟨hres, k'' + 1, by omega, ?_⟩
            have hidx : i + (k'' + 1) = i + 1 + k'' := by omega
            rw [hidx]
            exact hb0
          · right
            left
            refine ⟨hres, k'' + 1, by omega, ?_, hmp, ?_⟩
            · have hidx : i + (k'' + 1) = i + 1 + k'' := by omega
              rw [hidx]
              exact hbne
            · have := hsum1 k'
              omega
          · right
            right
            refine ⟨hres, by omega, ?_⟩
            rcases hrest with hk0 | ⟨k'', hk'', hbne, hnc⟩
            · right
              subst hk0
              refine ⟨0, by omega, by simpa using hp, ?_⟩
              intro hx
              apply hcap
              refine ⟨hx.1, ?_⟩
              have h2 := hx.2
              have := hsum1 0
              have hz : sumProc b (i + 1) 0 = 0 := rfl
              omega
            · right
              refine ⟨k'' + 1, by omega, ?_, ?_⟩
              · have hidx : i + (k'' + 1) = i + 1 + k'' := by omega
                rw [hidx]
                exact hbne
              · intro hx
                apply hnc
                refine ⟨hx.1, ?_⟩
                have h2 := hx.2
                have := hsum1 k'
                omega

/-- C9: the batch loop of extract_posts halts exactly at the first of:
the selection returns zero records, the cumulative processed count
reaches the non-zero --max-pages cap, or the configured number of
batches is exhausted; no other condition stops it, and the cumulative
processed/updated totals it reports are the sums over the executed
batches. -/
theorem extract_posts_stop_conditions (batches : Nat → Nat × Nat) (repeatN maxPages : Nat) :
    ∃ k : Nat, k ≤ repeatN ∧
      (extract_posts batches repeatN maxPages).processed = sumProc batches 1 k ∧
      (extract_posts batches repeatN maxPages).updated = sumUpd batches 1 k ∧
      (∀ j : Nat, j + 1 < k → (batches (1 + j)).1 ≠ 0 ∧
        ¬(maxPages ≠ 0 ∧ maxPages ≤ sumProc batches 1 (j + 1))) ∧
      (((extract_posts batches repeatN maxPages).reason = StopReason.backlogEmpty ∧
          ∃ k' : Nat, k = k' + 1 ∧ (batches (1 + k')).1 = 0) ∨
       ((extract_posts batches repeatN maxPages).reason = StopReason.capReached ∧
          ∃ k' : Nat, k = k' + 1 ∧ (batches (1 + k')).1 ≠ 0 ∧ maxPages ≠ 0 ∧
            maxPages ≤ sumProc batches 1 k) ∨
       ((extract_posts batches repeatN maxPages).reason = StopReason.batchesExhausted ∧
          k = repeatN ∧ (k = 0 ∨ ∃ k' : Nat, k = k' + 1 ∧ (batches (1 + k')).1 ≠ 0 ∧
            ¬(maxPages ≠ 0 ∧ maxPages ≤ sumProc batches 1 k)))) := by
  have hpre : maxPages = 0 ∨ (0 : Nat) < maxPages := by omega
  obtain ⟨k, hk, hproc, hupd, hnostop, hreason⟩ :=
    extractLoop_spec batches maxPages repeatN 1 0 0 hpre
  refine ⟨k, hk, ?_, ?_, ?_, ?_⟩
  · simp only [extract_posts]
    simpa using hproc
  · simp only [extract_posts]
    simpa using hupd
  · intro j hj
    have h := hnostop j hj
    simpa using h
  · simp only [extract_posts]
    rcases hreason with ⟨h1, k', h2, h3⟩ | ⟨h1, k', h2, h3, h4, h5⟩ | ⟨h1, h2, h3⟩
    · exact Or.inl ⟨h1, k', h2, h3⟩
    · refine Or.inr (Or.inl ⟨h1, k', h2, h3, h4, ?_⟩)
      simpa using h5
    · refine Or.inr (Or.inr ⟨h1, h2, ?_⟩)
      rcases h3 with h | ⟨k', hk', hb, hn⟩
      · exact Or.inl h
      · refine Or.inr ⟨k', hk', hb, ?_⟩
        intro hx
        apply hn
        exact ⟨hx.1, by simpa using hx.2⟩

/-- C9 witness: the characterization instantiated at the concrete batch
sequence sampleBatches, three configured batches and no page cap. -/
theorem extract_posts_stop_conditions_witness :
    ∃ k : Nat, k ≤ 3 ∧
      (extract_posts sampleBatches 3 0).processed = sumProc sampleBatches 1 k ∧
      (extract_posts sampleBatches 3 0).updated = sumUpd sampleBatches 1 k ∧
      (∀ j : Nat, j + 1 < k → (sampleBatches (1 + j)).1 ≠ 0 ∧
        ¬((0 : Nat) ≠ 0 ∧ (0 : Nat) ≤ sumProc sampleBatches 1 (j + 1))) ∧
      (((extract_posts sampleBatches 3 0).reason = StopReason.backlogEmpty ∧
          ∃ k' : Nat, k = k' + 1 ∧ (sampleBatches (1 + k')).1 = 0) ∨
       ((extract_posts sampleBatches 3 0).reason = StopReason.capReached ∧
          ∃ k' : Nat, k = k' + 1 ∧ (sampleBatches (1 + k')).1 ≠ 0 ∧ (0 : Nat) ≠ 0 ∧
            (0 : Nat) ≤ sumProc sampleBatches 1 k) ∨
       ((extract_posts sampleBatches 3 0).reason = StopReason.batchesExhausted ∧
          k = 3 ∧ (k = 0 ∨ ∃ k' : Nat, k = k' + 1 ∧ (sampleBatches (1 + k')).1 ≠ 0 ∧
            ¬((0 : Nat) ≠ 0 ∧ (0 : Nat) ≤ sumProc sampleBatches 1 k)))) :=
  extract_posts_stop_conditions sampleBatches 3 0

end RpgStats
